import Mathlib

/-!
Shallow embedding of the bisq SQL SELECT builder (`bisq.go`) and proofs about
its WHERE-clause assembly, value extraction and statement rendering.

Modelling conventions:
* Go `interface{}` bound values are modelled by the inductive `GoValue`
  (strings, integers, booleans), with `goFormat` playing the role of
  `fmt.Sprintf("%v", x)` on those values.
* The heterogeneous `Block` list stored in `Builder.wheres` is modelled by the
  inductive `WhereEntry`; a `WhereFnBlock`'s closure is modelled by the list of
  entries it appends to the fresh sub-builder it is invoked with (the only
  observable effect `buildWhereClause` and `recursiveValues` read from it).
* The mutable `prev` field of the Go `Builder` is threaded as the `prev`
  argument of `buildWhereClause`: within one call of the Go function, `prev`
  is written at the end of every loop iteration, and a freshly built Builder
  (from `Table`, or the fresh sub-builder made for a `WhereFnBlock`) starts
  with `prev = nil`, so `idx > 0` holds exactly when `prev` is assigned.
* `strings.ReplaceAll` is modelled by `replaceAllGo` (non-overlapping,
  left-to-right replacement); it is only ever applied with the non-empty
  pattern `"[WHERE]"`.
* The Go `query` string builder written by `Get` is modelled by `Builder.Get`
  returning the rendered text directly (the composition `.Get(cols).String()`
  for a builder rendered once).
-/

namespace Bisq

/-- Go `interface{}` values that can be bound in a `WhereBlock`. -/
inductive GoValue where
  | vStr (s : String)
  | vInt (n : Int)
  | vBool (b : Bool)
deriving Repr, DecidableEq

/-- `fmt.Sprintf("%v", v)` for the modelled values. -/
def goFormat : GoValue → String
  | .vStr s => s
  | .vInt n => Int.repr n
  | .vBool b => if b then "true" else "false"

/-- Character-list worker for `strings.ReplaceAll`: replaces non-overlapping
occurrences of `pat` in `s` by `rep`, scanning left to right.  (For the empty
pattern it returns `s` unchanged; the source only uses the pattern
`"[WHERE]"`, which is non-empty.) -/
def replaceChars (s pat rep : List Char) : List Char :=
  match s with
  | [] => []
  | c :: cs =>
    if pat ≠ [] ∧ pat.isPrefixOf (c :: cs) then
      rep ++ replaceChars ((c :: cs).drop pat.length) pat rep
    else
      c :: replaceChars cs pat rep
termination_by s.length
decreasing_by
  · rename_i h
    simp only [List.length_drop, List.length_cons]
    have hp : 0 < pat.length := List.length_pos.mpr h.1
    omega
  · simp

/-- Go `strings.ReplaceAll` on strings (for a non-empty pattern). -/
def replaceAllGo (s pattern rep : String) : String :=
  ⟨replaceChars s.data pattern.data rep.data⟩

/-- The heterogeneous `Block` values the Go code stores in `Builder.wheres`:
`WhereBlock`, `WhereNullBlock`, `OrBlock` and `WhereFnBlock`.  A
`WhereFnBlock` carries the entry list its closure appends to the fresh
sub-builder it is invoked with. -/
inductive WhereEntry where
  | whereBlock (column : String) (op : String) (value : GoValue)
  | whereNullBlock (column : String)
  | orBlock
  | whereFnBlock (sub : List WhereEntry)
deriving Repr

/-- `WhereBlock.String()`: `fmt.Sprintf("%v %v %v", column, op, "[WHERE]")`. -/
def whereBlockString (column op : String) : String :=
  column ++ " " ++ op ++ " " ++ "[WHERE]"

/-- The fragment `buildWhereClause` writes for a `WhereBlock` when the running
counter is `k-1`: `strings.ReplaceAll(v.String(), "[WHERE]", "$k")`. -/
def mkWhereFragment (column op : String) (k : Nat) : String :=
  replaceAllGo (whereBlockString column op) "[WHERE]" ("$" ++ Nat.repr k)

/-- Whether a block is the `*OrBlock` variant (the Go type switches). -/
def isOrBlock : WhereEntry → Bool
  | .orBlock => true
  | _ => false

/-- The joiner written before the current block's fragment: nothing for the
first iteration (`idx == 0`, i.e. `prev` not yet assigned); `" OR "` when the
previous block was an `OrBlock`; nothing when the current block is itself an
`OrBlock`; `" AND "` otherwise. -/
def joinerFor (prev : Option WhereEntry) (block : WhereEntry) : String :=
  match prev with
  | none => ""
  | some p => if isOrBlock p then " OR " else if isOrBlock block then "" else " AND "

/-- `Builder.buildWhereClause`: renders the WHERE entry list starting from the
running placeholder counter `whereValue`, returning the clause text and the
advanced counter.  `prev` models the builder's `prev` field (`none` for a
freshly created builder). -/
def buildWhereClause : List WhereEntry → Option WhereEntry → Nat → String × Nat
  | [], _, whereValue => ("", whereValue)
  | .whereBlock c o v :: rest, prev, whereValue =>
    let r := buildWhereClause rest (some (.whereBlock c o v)) (whereValue + 1)
    (joinerFor prev (.whereBlock c o v) ++ (mkWhereFragment c o (whereValue + 1) ++ r.1), r.2)
  | .whereNullBlock c :: rest, prev, whereValue =>
    let r := buildWhereClause rest (some (.whereNullBlock c)) whereValue
    (joinerFor prev (.whereNullBlock c) ++ ((c ++ " IS NULL") ++ r.1), r.2)
  | .orBlock :: rest, prev, whereValue =>
    let r := buildWhereClause rest (some .orBlock) whereValue
    (joinerFor prev .orBlock ++ ("" ++ r.1), r.2)
  | .whereFnBlock sub :: rest, prev, whereValue =>
    let inner := buildWhereClause sub none whereValue
    let r := buildWhereClause rest (some (.whereFnBlock sub)) inner.2
    (joinerFor prev (.whereFnBlock sub) ++ (("(" ++ inner.1 ++ ")") ++ r.1), r.2)

/-- `Builder.recursiveValues`: appends, in document order, every
`WhereBlock`'s bound value to `values`, recursing through `WhereFnBlock`
sub-lists at the point they occur. -/
def recursiveValues : List WhereEntry → List GoValue → List GoValue
  | [], values => values
  | .whereBlock _ _ v :: rest, values => recursiveValues rest (values ++ [v])
  | .whereNullBlock _ :: rest, values => recursiveValues rest values
  | .orBlock :: rest, values => recursiveValues rest values
  | .whereFnBlock sub :: rest, values => recursiveValues rest (recursiveValues sub values)

/-- The `(column, op, value)` triples of the `WhereBlock`s of an entry list in
document order, `WhereFnBlock`s visited depth-first at the point they occur. -/
def comparisonsOf : List WhereEntry → List (String × String × GoValue)
  | [] => []
  | .whereBlock c o v :: rest => (c, o, v) :: comparisonsOf rest
  | .whereNullBlock _ :: rest => comparisonsOf rest
  | .orBlock :: rest => comparisonsOf rest
  | .whereFnBlock sub :: rest => comparisonsOf sub ++ comparisonsOf rest

/-- Number of `WhereBlock`s in document order (depth-first). -/
def numComparisons (es : List WhereEntry) : Nat :=
  (comparisonsOf es).length

/-- The builder state mutated by the fluent API.  The Go struct's `query`
field is modelled by the string `Get` returns, and its `prev` field by the
`prev` argument of `buildWhereClause` (see the module docstring). -/
structure Builder where
  tableName : String
  wheres : List WhereEntry
  limit : Option Int
  offset : Option Int
  orderBys : List (String × String)
deriving Repr

/-- `Table(name)`. -/
def Table (name : String) : Builder :=
  { tableName := name, wheres := [], limit := none, offset := none, orderBys := [] }

/-- `Builder.Values()`. -/
def Builder.Values (b : Builder) : List GoValue :=
  recursiveValues b.wheres []

/-- Go `strings.Join(elems, sep)`. -/
def goJoin : List String → String → String
  | [], _ => ""
  | [e], _ => e
  | e :: rest, sep => e ++ sep ++ goJoin rest sep

/-- `OrderByBlock.String()`: `fmt.Sprintf("%v %v", column, direction)`. -/
def orderByString (ob : String × String) : String :=
  ob.1 ++ " " ++ ob.2

/-- The ORDER BY loop in `Get` after its first iteration: every remaining
block's string is preceded by `", "` (the loop writes the separator whenever
`idx > 0`). -/
def orderByRest : List (String × String) → String
  | [] => ""
  | ob :: rest => ", " ++ orderByString ob ++ orderByRest rest

/-- The ORDER BY loop in `Get`: writes each block's string, preceded by
`", "` for every index greater than 0. -/
def orderByConcat : List (String × String) → String
  | [] => ""
  | ob :: rest => orderByString ob ++ orderByRest rest

/-- `Builder.Get(columns...)` composed with `String()`: the rendered text of a
builder rendered once. -/
def Builder.Get (b : Builder) (columns : List String) : String :=
  let columns := if columns.length = 0 then columns ++ ["*"] else columns
  let q := "SELECT " ++ goJoin columns ", " ++ " FROM " ++ b.tableName
  let q := if b.wheres.length > 0 then q ++ " WHERE " ++ (buildWhereClause b.wheres none 0).1 else q
  let q := if b.orderBys.length > 0 then q ++ " ORDER BY " ++ orderByConcat b.orderBys else q
  let q := match b.limit with
    | some l => q ++ " " ++ ("LIMIT " ++ Int.repr l)
    | none => q
  let q := match b.offset with
    | some o => q ++ " " ++ ("OFFSET " ++ Int.repr o)
    | none => q
  q ++ ";"

/-- `Builder.Limit(limit)`. -/
def Builder.Limit (b : Builder) (limit : Int) : Builder :=
  { b with limit := some limit }

/-- `Builder.Offset(offset)`. -/
def Builder.Offset (b : Builder) (offset : Int) : Builder :=
  { b with offset := some offset }

/-- Go `strings.ToLower`, mapping each character (sufficient for the ASCII
directions this code compares against). -/
def goToLower (s : String) : String :=
  ⟨s.data.map Char.toLower⟩

/-- Go `strings.ToUpper`, mapping each character. -/
def goToUpper (s : String) : String :=
  ⟨s.data.map Char.toUpper⟩

/-- `Builder.OrderBy(column, direction)`. -/
def Builder.OrderBy (b : Builder) (column direction : String) : Builder :=
  let direction := if goToLower direction ≠ "asc" ∧ goToLower direction ≠ "desc" then "asc" else direction
  let direction := goToUpper direction
  { b with orderBys := b.orderBys ++ [(column, direction)] }

/-- `Builder.Where(column, value...)` with the variadic arguments as a list. -/
def Builder.Where (b : Builder) (column : String) (value : List GoValue) : Builder :=
  match value with
  | [] => b
  | [v0] => { b with wheres := b.wheres ++ [.whereBlock column "=" v0] }
  | v0 :: v1 :: _ => { b with wheres := b.wheres ++ [.whereBlock column (goFormat v0) v1] }

/-- `Builder.WhereNull(column)`. -/
def Builder.WhereNull (b : Builder) (column : String) : Builder :=
  { b with wheres := b.wheres ++ [.whereNullBlock column] }

/-- `Builder.WhereFn(fn)`, with the closure represented by the entry list it
appends to the fresh sub-builder it receives. -/
def Builder.WhereFn (b : Builder) (sub : List WhereEntry) : Builder :=
  { b with wheres := b.wheres ++ [.whereFnBlock sub] }

/-- `Builder.Or()`. -/
def Builder.Or (b : Builder) : Builder :=
  { b with wheres := b.wheres ++ [.orBlock] }

-- Derived definitions used by the lemmas and claim statements.

/-- The `prev` value the builder's `prev` field holds after the
`buildWhereClause` loop has run over `xs`, having started at `prev`. -/
def prevAfter (xs : List WhereEntry) (prev : Option WhereEntry) : Option WhereEntry :=
  match xs with
  | [] => prev
  | x :: rest => prevAfter rest (some x)

/-- Renderer as the spec's §4.6 wording describes it, for comparison with
`Builder.Get`: `SELECT <cols> FROM <table>` (cols defaulting to `*`,
comma-joined) + optional ` WHERE <assembled clause>` + optional
` ORDER BY <entries joined with ", ">` + optional ` LIMIT <n>` + optional
` OFFSET <n>` + trailing `;`. -/
def textSpec (b : Builder) (cols : List String) : String :=
  "SELECT " ++ goJoin (if cols = [] then ["*"] else cols) ", "
    ++ " FROM " ++ b.tableName
    ++ (if b.wheres.isEmpty then "" else " WHERE " ++ (buildWhereClause b.wheres none 0).1)
    ++ (if b.orderBys.isEmpty then "" else " ORDER BY " ++ goJoin (b.orderBys.map orderByString) ", ")
    ++ (match b.limit with | some n => " LIMIT " ++ Int.repr n | none => "")
    ++ (match b.offset with | some n => " OFFSET " ++ Int.repr n | none => "")
    ++ ";"

/-- Number of `$` characters in a string. -/
def dollarCount (s : String) : Nat :=
  s.data.count '$'

/-- Cleanliness of the caller-supplied strings inside a WHERE entry list:
comparison columns and operators contain neither `'$'` nor `'['`, null-check
columns contain no `'$'`, and groups are clean recursively. -/
def entriesClean : List WhereEntry → Prop
  | [] => True
  | .whereBlock c o _ :: rest =>
    ('$' ∉ c.data ∧ '[' ∉ c.data ∧ '$' ∉ o.data ∧ '[' ∉ o.data) ∧ entriesClean rest
  | .whereNullBlock c :: rest => '$' ∉ c.data ∧ entriesClean rest
  | .orBlock :: rest => entriesClean rest
  | .whereFnBlock sub :: rest => entriesClean sub ∧ entriesClean rest

-- Sanity checks against the Go test suite (`bisq_test.go`).

example : (Table "carriers").Get [] = "SELECT * FROM carriers;" := by decide

example : (Table "carriers").Get ["id", "name"] = "SELECT id, name FROM carriers;" := by decide

example :
    ((Table "conversations").Where "user_id" [.vInt 1]).Get []
      = "SELECT * FROM conversations WHERE user_id = $1;" := by
  simp +decide [Builder.Get, Table, Builder.Where, buildWhereClause, joinerFor, isOrBlock,
    mkWhereFragment, replaceAllGo, replaceChars, whereBlockString, goJoin]

example :
    (((Table "conversations").Where "user_id" [.vInt 1]).Where "status" [.vStr "active"]).Get []
      = "SELECT * FROM conversations WHERE user_id = $1 AND status = $2;" := by
  simp +decide [Builder.Get, Table, Builder.Where, buildWhereClause, joinerFor, isOrBlock,
    mkWhereFragment, replaceAllGo, replaceChars, whereBlockString, goJoin]

example :
    (((Table "total_stats").Where "date" [.vStr ">=", .vStr "2021-01-01"]).Where "date"
        [.vStr "<=", .vStr "2021-01-31"]).Get []
      = "SELECT * FROM total_stats WHERE date >= $1 AND date <= $2;" := by
  simp +decide [Builder.Get, Table, Builder.Where, goFormat, buildWhereClause, joinerFor, isOrBlock,
    mkWhereFragment, replaceAllGo, replaceChars, whereBlockString, goJoin]

example :
    ((Table "leads").WhereFn
        [.whereBlock "import_file_id" "=" (.vInt 1), .orBlock, .whereNullBlock "blacklisted_at"]).Get []
      = "SELECT * FROM leads WHERE (import_file_id = $1 OR blacklisted_at IS NULL);" := by
  simp +decide [Builder.Get, Table, Builder.WhereFn, buildWhereClause, joinerFor, isOrBlock,
    mkWhereFragment, replaceAllGo, replaceChars, whereBlockString, goJoin]

example :
    ((((Table "users").OrderBy "created_at" "DESC").Limit 10).Offset 20).Get ["id", "name", "email"]
      = "SELECT id, name, email FROM users ORDER BY created_at DESC LIMIT 10 OFFSET 20;" := by decide

example :
    ((Table "orders").WhereFn
        [.whereBlock "status" "=" (.vStr "pending"), .orBlock,
         .whereFnBlock [.whereBlock "status" "=" (.vStr "processing"),
           .whereBlock "created_at" ">" (.vStr "2023-01-01")]]).Get ["id", "user_id", "total"]
      = "SELECT id, user_id, total FROM orders WHERE (status = $1 OR (status = $2 AND created_at > $3));" := by
  simp +decide [Builder.Get, Table, Builder.WhereFn, buildWhereClause, joinerFor, isOrBlock,
    mkWhereFragment, replaceAllGo, replaceChars, whereBlockString, goJoin]

example :
    ((((Table "employees").OrderBy "department" "ASC").OrderBy "salary" "DESC").Limit 5).Get
        ["id", "name", "department", "salary"]
      = "SELECT id, name, department, salary FROM employees ORDER BY department ASC, salary DESC LIMIT 5;" := by
  decide

example :
    (((Table "articles").Where "published" [.vBool true]).WhereFn
        [.whereBlock "category" "=" (.vStr "tech"), .orBlock,
         .whereBlock "category" "=" (.vStr "science")]).Values
      = [.vBool true, .vStr "tech", .vStr "science"] := by
  simp +decide [Builder.Values, Table, Builder.Where, Builder.WhereFn, recursiveValues]

-- General lemmas about the clause assembler and the value extractor.

/-- The counter returned by `buildWhereClause` is the starting counter plus
the number of comparisons visited depth-first; in particular it does not
depend on `prev`. -/
theorem buildWhereClause_snd (es : List WhereEntry) : ∀ (prev : Option WhereEntry) (n : Nat),
    (buildWhereClause es prev n).2 = n + numComparisons es := by
  induction es using comparisonsOf.induct with
  | case1 => intro prev n; simp [buildWhereClause, numComparisons, comparisonsOf]
  | case2 c o v rest ih =>
    intro prev n
    simp [buildWhereClause, numComparisons, comparisonsOf, ih]
    omega
  | case3 c rest ih => intro prev n; simp [buildWhereClause, numComparisons, comparisonsOf, ih]
  | case4 rest ih => intro prev n; simp [buildWhereClause, numComparisons, comparisonsOf, ih]
  | case5 sub rest ih1 ih2 =>
    intro prev n
    simp [buildWhereClause, numComparisons, comparisonsOf, ih1, ih2]
    omega

/-- `prev` only contributes the leading joiner of the rendered clause. -/
theorem buildWhereClause_fst_prev (b : WhereEntry) (rest : List WhereEntry)
    (prev : Option WhereEntry) (n : Nat) :
    (buildWhereClause (b :: rest) prev n).1
      = joinerFor prev b ++ (buildWhereClause (b :: rest) none n).1 := by
  cases b <;> simp [buildWhereClause, joinerFor]

/-- Splitting `buildWhereClause` over an append of entry lists. -/
theorem buildWhereClause_append (xs ys : List WhereEntry) (prev : Option WhereEntry) (n : Nat) :
    buildWhereClause (xs ++ ys) prev n =
      ((buildWhereClause xs prev n).1
         ++ (buildWhereClause ys (prevAfter xs prev) (buildWhereClause xs prev n).2).1,
       (buildWhereClause ys (prevAfter xs prev) (buildWhereClause xs prev n).2).2) := by
  induction xs generalizing prev n with
  | nil => simp [buildWhereClause, prevAfter]
  | cons b rest ih => cases b <;> simp [buildWhereClause, prevAfter, ih, String.append_assoc]

/-- `recursiveValues` appends the bound values of the comparisons in
document order. -/
theorem recursiveValues_eq (es : List WhereEntry) : ∀ (acc : List GoValue),
    recursiveValues es acc = acc ++ (comparisonsOf es).map (fun x => x.2.2) := by
  induction es using comparisonsOf.induct with
  | case1 => intro acc; simp [recursiveValues, comparisonsOf]
  | case2 c o v rest ih => intro acc; simp [recursiveValues, comparisonsOf, ih]
  | case3 c rest ih => intro acc; simp [recursiveValues, comparisonsOf, ih]
  | case4 rest ih => intro acc; simp [recursiveValues, comparisonsOf, ih]
  | case5 sub rest ih1 ih2 => intro acc; simp [recursiveValues, comparisonsOf, ih1, ih2]

/-- `Values` returns exactly the bound values of the comparisons in
document order. -/
theorem Values_eq (b : Builder) :
    b.Values = (comparisonsOf b.wheres).map (fun x => x.2.2) := by
  simp [Builder.Values, recursiveValues_eq]

/-- The fragment rendered for the `k`-th comparison (0-indexed, document
order) of an entry list assembled with starting counter `n` is
`mkWhereFragment c o (n + k + 1)`: the clause text splits around it. -/
theorem buildWhereClause_nth_fragment (es : List WhereEntry) :
    ∀ (prev : Option WhereEntry) (n k : Nat) (c o : String) (v : GoValue),
      (comparisonsOf es)[k]? = some (c, o, v) →
      ∃ P Q : String, (buildWhereClause es prev n).1 = P ++ mkWhereFragment c o (n + k + 1) ++ Q := by
  induction es using comparisonsOf.induct with
  | case1 => intro prev n k c o v h; simp [comparisonsOf] at h
  | case2 c0 o0 v0 rest ih =>
    intro prev n k c o v h
    rw [comparisonsOf] at h
    cases k with
    | zero =>
      rw [List.getElem?_cons_zero, Option.some_inj, Prod.mk.injEq, Prod.mk.injEq] at h
      obtain ⟨h1, h2, h3⟩ := h
      subst h1; subst h2
      refine ⟨joinerFor prev (.whereBlock c0 o0 v0),
        (buildWhereClause rest (some (.whereBlock c0 o0 v0)) (n + 1)).1, ?_⟩
      simp [buildWhereClause, String.append_assoc]
    | succ k' =>
      rw [List.getElem?_cons_succ] at h
      obtain ⟨P, Q, hPQ⟩ := ih (some (.whereBlock c0 o0 v0)) (n + 1) k' c o v h
      have harith : n + 1 + k' + 1 = n + (k' + 1) + 1 := by omega
      rw [harith] at hPQ
      refine ⟨joinerFor prev (.whereBlock c0 o0 v0) ++ (mkWhereFragment c0 o0 (n + 1) ++ P), Q, ?_⟩
      simp [buildWhereClause, hPQ, String.append_assoc]
  | case3 c0 rest ih =>
    intro prev n k c o v h
    rw [comparisonsOf] at h
    obtain ⟨P, Q, hPQ⟩ := ih (some (.whereNullBlock c0)) n k c o v h
    refine ⟨joinerFor prev (.whereNullBlock c0) ++ ((c0 ++ " IS NULL") ++ P), Q, ?_⟩
    simp [buildWhereClause, hPQ, String.append_assoc]
  | case4 rest ih =>
    intro prev n k c o v h
    rw [comparisonsOf] at h
    obtain ⟨P, Q, hPQ⟩ := ih (some .orBlock) n k c o v h
    refine ⟨joinerFor prev .orBlock ++ P, Q, ?_⟩
    simp [buildWhereClause, hPQ, String.append_assoc]
  | case5 sub rest ih1 ih2 =>
    intro prev n k c o v h
    rw [comparisonsOf, List.getElem?_append] at h
    split at h
    · obtain ⟨P, Q, hPQ⟩ := ih1 none n k c o v h
      refine ⟨joinerFor prev (.whereFnBlock sub) ++ ("(" ++ P),
        Q ++ (")" ++ (buildWhereClause rest (some (.whereFnBlock sub))
          (buildWhereClause sub none n).2).1), ?_⟩
      simp [buildWhereClause, hPQ, String.append_assoc]
    · rename_i hk
      obtain ⟨P, Q, hPQ⟩ := ih2 (some (.whereFnBlock sub))
        (n + numComparisons sub) (k - (comparisonsOf sub).length) c o v h
      have harith : n + numComparisons sub + (k - (comparisonsOf sub).length) + 1 = n + k + 1 := by
        simp only [numComparisons]; omega
      rw [harith] at hPQ
      refine ⟨joinerFor prev (.whereFnBlock sub)
        ++ (("(" ++ (buildWhereClause sub none n).1 ++ ")") ++ P), Q, ?_⟩
      rw [buildWhereClause]
      simp only [buildWhereClause_snd sub none n] at hPQ ⊢
      simp [hPQ, String.append_assoc]

-- Claim theorems.

/-- Claim C1: for every built statement, the `n`-th comparison encountered in
document order (groups visited depth-first where they occur) is rendered by
the clause assembler with placeholder `$n` (1-indexed), and the value
extractor returns that comparison's bound value as its `n`-th element. -/
theorem nth_comparison_placeholder_and_value (es : List WhereEntry) (k : Nat)
    (c o : String) (v : GoValue)
    (h : (comparisonsOf es)[k]? = some (c, o, v)) :
    (∃ P Q : String, (buildWhereClause es none 0).1 = P ++ mkWhereFragment c o (k + 1) ++ Q)
      ∧ (recursiveValues es [])[k]? = some v := by
  constructor
  · have := buildWhereClause_nth_fragment es none 0 k c o v h
    simpa using this
  · simp [recursiveValues_eq, List.getElem?_map, h]

/-- Witness for C1 at a concrete nested statement: the third comparison (index
2) of `[a = 1, (b > "x" OR c IS NULL), d < true]` is rendered with `$3` and
its value is third in the extracted sequence. -/
theorem nth_comparison_placeholder_and_value_witness :
    ((comparisonsOf [.whereBlock "a" "=" (.vInt 1),
        .whereFnBlock [.whereBlock "b" ">" (.vStr "x"), .orBlock, .whereNullBlock "c"],
        .whereBlock "d" "<" (.vBool true)])[2]? = some ("d", "<", GoValue.vBool true))
    ∧ ((∃ P Q : String,
          (buildWhereClause [.whereBlock "a" "=" (.vInt 1),
              .whereFnBlock [.whereBlock "b" ">" (.vStr "x"), .orBlock, .whereNullBlock "c"],
              .whereBlock "d" "<" (.vBool true)] none 0).1
            = P ++ mkWhereFragment "d" "<" (2 + 1) ++ Q)
        ∧ (recursiveValues [.whereBlock "a" "=" (.vInt 1),
              .whereFnBlock [.whereBlock "b" ">" (.vStr "x"), .orBlock, .whereNullBlock "c"],
              .whereBlock "d" "<" (.vBool true)] [])[2]? = some (GoValue.vBool true)) :=
  ⟨by simp [comparisonsOf],
   nth_comparison_placeholder_and_value _ 2 "d" "<" (.vBool true) (by simp [comparisonsOf])⟩

/-- Claim C2 (counterexample): a WHERE list that starts with an `OrMarker`
does NOT render the same text as the list without the marker — the marker
becomes the `prev` block, so the first real fragment is preceded by a leading
`" OR "` joiner. -/
theorem leading_or_marker_counterexample :
    ((Table "t").Or.Where "a" [.vInt 1]).Get [] = "SELECT * FROM t WHERE  OR a = $1;"
    ∧ ((Table "t").Where "a" [.vInt 1]).Get [] = "SELECT * FROM t WHERE a = $1;"
    ∧ ((Table "t").Or.Where "a" [.vInt 1]).Get [] ≠ ((Table "t").Where "a" [.vInt 1]).Get [] := by
  refine ⟨?_, ?_, ?_⟩ <;>
    simp +decide [Builder.Get, Table, Builder.Where, Builder.Or, buildWhereClause, joinerFor,
      isOrBlock, mkWhereFragment, replaceAllGo, replaceChars, whereBlockString, goJoin]

/-- Claim C2 (amended): a leading `OrMarker` is visible — for a non-empty
remainder, the assembled clause is exactly `" OR "` prepended to the clause
assembled for the list with the leading marker removed, and the placeholder
counter is unaffected. -/
theorem leading_or_marker_prepends_or (rest : List WhereEntry) (h : rest ≠ []) (n : Nat) :
    (buildWhereClause (.orBlock :: rest) none n).1 = " OR " ++ (buildWhereClause rest none n).1 ∧
    (buildWhereClause (.orBlock :: rest) none n).2 = (buildWhereClause rest none n).2 := by
  obtain ⟨b, rest', rfl⟩ := List.exists_cons_of_ne_nil h
  constructor
  · rw [buildWhereClause]
    rw [buildWhereClause_fst_prev b rest' (some .orBlock) n]
    simp [joinerFor, isOrBlock]
  · rw [buildWhereClause]
    simp [buildWhereClause_snd, numComparisons, comparisonsOf]

/-- Witness for the amended C2 at a concrete input. -/
theorem leading_or_marker_prepends_or_witness :
    (buildWhereClause [.orBlock, .whereBlock "a" "=" (.vInt 1)] none 0).1
        = " OR " ++ (buildWhereClause [.whereBlock "a" "=" (.vInt 1)] none 0).1 ∧
    (buildWhereClause [.orBlock, .whereBlock "a" "=" (.vInt 1)] none 0).2
        = (buildWhereClause [.whereBlock "a" "=" (.vInt 1)] none 0).2 :=
  leading_or_marker_prepends_or [.whereBlock "a" "=" (.vInt 1)] (by simp) 0

/-- Claim C3: with exactly one `OrMarker` between two comparisons, the
rendered clause joins those two fragments with `" OR "` where the marker-free
list would use `" AND "`, everything before and after the junction (`P`, `Q`)
is unchanged, the marker consumes no placeholder (the two comparisons get
consecutive placeholders), and the final counters agree. -/
theorem or_marker_overrides_single_junction (xs ys : List WhereEntry)
    (c1 o1 c2 o2 : String) (v1 v2 : GoValue) :
    ∃ P Q : String,
      (buildWhereClause
          (xs ++ .whereBlock c1 o1 v1 :: .orBlock :: .whereBlock c2 o2 v2 :: ys) none 0).1
        = P ++ mkWhereFragment c1 o1 (numComparisons xs + 1)
            ++ (" OR " ++ (mkWhereFragment c2 o2 (numComparisons xs + 2) ++ Q)) ∧
      (buildWhereClause
          (xs ++ .whereBlock c1 o1 v1 :: .whereBlock c2 o2 v2 :: ys) none 0).1
        = P ++ mkWhereFragment c1 o1 (numComparisons xs + 1)
            ++ (" AND " ++ (mkWhereFragment c2 o2 (numComparisons xs + 2) ++ Q)) ∧
      (buildWhereClause
          (xs ++ .whereBlock c1 o1 v1 :: .orBlock :: .whereBlock c2 o2 v2 :: ys) none 0).2
        = (buildWhereClause
          (xs ++ .whereBlock c1 o1 v1 :: .whereBlock c2 o2 v2 :: ys) none 0).2 := by
  refine ⟨(buildWhereClause xs none 0).1
      ++ joinerFor (prevAfter xs none) (.whereBlock c1 o1 v1),
    (buildWhereClause ys (some (.whereBlock c2 o2 v2)) (numComparisons xs + 2)).1, ?_, ?_, ?_⟩ <;>
    simp [buildWhereClause_append, buildWhereClause, buildWhereClause_snd, joinerFor, isOrBlock,
      String.append_assoc]

/-- Claim C4: a group entry renders as the recursively assembled sub-clause
wrapped in parentheses; the recursion starts from the parent's current
counter `n`, and the parent resumes from the counter the recursion returns
(`n + numComparisons sub`), so numbering is contiguous across the group. -/
theorem group_fragment_parenthesized (sub rest : List WhereEntry)
    (prev : Option WhereEntry) (n : Nat) :
    (buildWhereClause (.whereFnBlock sub :: rest) prev n).1
      = joinerFor prev (.whereFnBlock sub)
          ++ ("(" ++ (buildWhereClause sub none n).1 ++ ")"
            ++ (buildWhereClause rest (some (.whereFnBlock sub)) (n + numComparisons sub)).1) ∧
    (buildWhereClause (.whereFnBlock sub :: rest) prev n).2
      = n + numComparisons sub + numComparisons rest := by
  constructor
  · rw [buildWhereClause]
    simp [buildWhereClause_snd, String.append_assoc]
  · rw [buildWhereClause]
    simp [buildWhereClause_snd]

/-- Claim C6: `where(col, val)` and `where(col, "=", val)` build the same
statement — the single-value form defaults the operator to `"="` — so the
rendered text and the bound-value sequences coincide. -/
theorem where_single_value_defaults_op (b : Builder) (col : String) (v : GoValue)
    (cols : List String) :
    b.Where col [v] = b.Where col [.vStr "=", v]
    ∧ (b.Where col [v]).Get cols = (b.Where col [.vStr "=", v]).Get cols
    ∧ (b.Where col [v]).Values = (b.Where col [.vStr "=", v]).Values :=
  ⟨rfl, rfl, rfl⟩

/-- Claim C7: a `where` call with zero values appends no entry and leaves
every field of the statement unchanged, so text and values are unaffected;
the call returns normally (it is total, no error is signalled). -/
theorem where_zero_values_noop (b : Builder) (col : String) (cols : List String) :
    b.Where col [] = b
    ∧ (b.Where col []).tableName = b.tableName
    ∧ (b.Where col []).wheres = b.wheres
    ∧ (b.Where col []).orderBys = b.orderBys
    ∧ (b.Where col []).limit = b.limit
    ∧ (b.Where col []).offset = b.offset
    ∧ (b.Where col []).Get cols = b.Get cols
    ∧ (b.Where col []).Values = b.Values :=
  ⟨rfl, rfl, rfl, rfl, rfl, rfl, rfl, rfl⟩

/-- Claim C10: a `where` call with three or more values builds the same
statement as the two-value call on the first two values — the first value
becomes the operator, the second the bound value, the rest are ignored in
both the rendered text and the bound-value sequence. -/
theorem where_extra_values_ignored (b : Builder) (col : String) (v0 v1 : GoValue)
    (rest : List GoValue) (cols : List String) :
    b.Where col (v0 :: v1 :: rest) = b.Where col [v0, v1]
    ∧ (b.Where col (v0 :: v1 :: rest)).Get cols = (b.Where col [v0, v1]).Get cols
    ∧ (b.Where col (v0 :: v1 :: rest)).Values = (b.Where col [v0, v1]).Values :=
  ⟨rfl, rfl, rfl⟩

-- The statement renderer, compared against the spec's description of it.

/-- The ORDER BY loop writes exactly the blocks' strings joined by `", "`. -/
theorem orderByConcat_eq_goJoin : ∀ obs : List (String × String),
    orderByConcat obs = goJoin (obs.map orderByString) ", "
  | [] => rfl
  | [ob] => by simp [orderByConcat, orderByRest, goJoin]
  | ob1 :: ob2 :: rest => by
    have ih := orderByConcat_eq_goJoin (ob2 :: rest)
    simp only [orderByConcat, orderByRest, List.map_cons] at ih ⊢
    simp only [goJoin]
    rw [← ih]
    simp [orderByConcat, String.append_assoc]

/-- Merging the separately written space with the `LimitBlock` text. -/
theorem space_limit_append (x : String) :
    (" " : String) ++ ("LIMIT " ++ x) = " LIMIT " ++ x := by
  rw [← String.append_assoc]
  exact congrArg (fun s => s ++ x) (by decide)

/-- Merging the separately written space with the `OffsetBlock` text. -/
theorem space_offset_append (x : String) :
    (" " : String) ++ ("OFFSET " ++ x) = " OFFSET " ++ x := by
  rw [← String.append_assoc]
  exact congrArg (fun s => s ++ x) (by decide)

/-- `Builder.Get` renders exactly the fixed-order text the spec describes. -/
theorem Get_eq_textSpec (b : Builder) (cols : List String) : b.Get cols = textSpec b cols := by
  obtain ⟨t, ws, lim, off, obs⟩ := b
  unfold Builder.Get textSpec
  cases cols <;> cases ws <;> cases obs <;> cases lim <;> cases off <;>
    simp [orderByConcat_eq_goJoin, space_limit_append, space_offset_append, String.append_assoc]

/-- Claim C9: the rendered text is exactly, in fixed order, `"SELECT "`, the
comma-joined columns (`"*"` if none), `" FROM "`, the table name, then the
optional WHERE / ORDER BY / LIMIT / OFFSET sections, each present only when
set, then a trailing `";"`. -/
theorem get_renders_fixed_order (b : Builder) (cols : List String) :
    b.Get cols = textSpec b cols :=
  Get_eq_textSpec b cols

/-- Claim C8: `orderBy` stores (and `Get` renders) the upper-cased direction
when the input matches `"asc"`/`"desc"` case-insensitively and `"ASC"` for
every other input; stacked entries are rendered in call order joined by
`", "`. -/
theorem orderBy_direction_normalized (b : Builder) (col dir : String) (cols : List String)
    (hob : b.orderBys ≠ []) :
    (b.OrderBy col dir).orderBys
      = b.orderBys ++ [(col, if goToLower dir = "asc" ∨ goToLower dir = "desc"
          then goToUpper dir else "ASC")]
    ∧ ∃ pre post : String,
        b.Get cols = pre ++ (" ORDER BY "
          ++ (goJoin (b.orderBys.map orderByString) ", " ++ post)) := by
  constructor
  · unfold Builder.OrderBy
    by_cases h : goToLower dir = "asc" ∨ goToLower dir = "desc"
    · rcases h with h | h <;> simp [h]
    · push_neg at h
      have : goToUpper "asc" = "ASC" := by decide
      simp [h.1, h.2, this]
  · obtain ⟨ob, obs', hobs⟩ := List.exists_cons_of_ne_nil hob
    refine ⟨"SELECT " ++ goJoin (if cols = [] then ["*"] else cols) ", "
        ++ " FROM " ++ b.tableName
        ++ (if b.wheres.isEmpty then "" else " WHERE " ++ (buildWhereClause b.wheres none 0).1),
      (match b.limit with | some n => " LIMIT " ++ Int.repr n | none => "")
        ++ ((match b.offset with | some n => " OFFSET " ++ Int.repr n | none => "") ++ ";"), ?_⟩
    rw [Get_eq_textSpec]
    unfold textSpec
    rw [hobs]
    simp [String.append_assoc]

/-- Witness for C8: after `orderBy("a", "dEsC")` a further
`orderBy("b", "down")` stores `("b", "ASC")`, and the rendered text contains
the joined order-by list. -/
theorem orderBy_direction_normalized_witness :
    ((((Table "t").OrderBy "a" "dEsC").OrderBy "b" "down").orderBys
      = ((Table "t").OrderBy "a" "dEsC").orderBys
        ++ [("b", if goToLower "down" = "asc" ∨ goToLower "down" = "desc"
            then goToUpper "down" else "ASC")])
    ∧ ∃ pre post : String,
        ((Table "t").OrderBy "a" "dEsC").Get []
          = pre ++ (" ORDER BY "
            ++ (goJoin (((Table "t").OrderBy "a" "dEsC").orderBys.map orderByString) ", " ++ post)) :=
  orderBy_direction_normalized ((Table "t").OrderBy "a" "dEsC") "b" "down" []
    (by simp [Table, Builder.OrderBy])

-- Counting `$` placeholders (claim C5).

theorem dollarCount_append (a b : String) :
    dollarCount (a ++ b) = dollarCount a + dollarCount b := by
  simp [dollarCount, String.data_append, List.count_append]

theorem digitChar_ge_16 (n : Nat) (h : 16 ≤ n) : Nat.digitChar n = '*' := by
  unfold Nat.digitChar
  iterate 16 rw [if_neg (by omega)]

theorem digitChar_ne_dollar (n : Nat) : Nat.digitChar n ≠ '$' := by
  by_cases h : 16 ≤ n
  · rw [digitChar_ge_16 n h]; decide
  · push_neg at h
    interval_cases n <;> decide

theorem toDigitsCore_no_dollar (b : Nat) : ∀ (f n : Nat) (acc : List Char),
    '$' ∉ acc → '$' ∉ Nat.toDigitsCore b f n acc := by
  intro f
  induction f with
  | zero => intro n acc h; simpa [Nat.toDigitsCore] using h
  | succ f ih =>
    intro n acc h
    have hacc : '$' ∉ Nat.digitChar (n % b) :: acc := by
      intro hm
      rcases List.mem_cons.mp hm with h1 | h1
      · exact digitChar_ne_dollar _ h1.symm
      · exact h h1
    rw [Nat.toDigitsCore]
    split
    · exact hacc
    · exact ih (n / b) (Nat.digitChar (n % b) :: acc) hacc

theorem natRepr_no_dollar (n : Nat) : '$' ∉ (Nat.repr n).data := by
  have := toDigitsCore_no_dollar 10 (n + 1) n [] (by simp)
  simpa [Nat.repr, Nat.toDigits, List.asString] using this

theorem intRepr_no_dollar (n : Int) : '$' ∉ (Int.repr n).data := by
  cases n with
  | ofNat m => simpa [Int.repr] using natRepr_no_dollar m
  | negSucc m =>
    simp only [Int.repr, String.data_append, List.mem_append]
    rintro (h | h)
    · revert h; decide
    · exact natRepr_no_dollar (m + 1) h

theorem isPrefixOf_self (l : List Char) : l.isPrefixOf l = true := by
  induction l with
  | nil => rfl
  | cons c cs ih => simp [List.isPrefixOf, ih]

/-- `replaceChars` on a string that ends with the pattern and whose remainder
never contains the pattern's first character `'['` replaces exactly that
final occurrence. -/
theorem replaceChars_marker (s pt rep : List Char) (h : '[' ∉ s) :
    replaceChars (s ++ '[' :: pt) ('[' :: pt) rep = s ++ rep := by
  induction s with
  | nil =>
    rw [List.nil_append, replaceChars]
    simp [isPrefixOf_self, List.drop_length, replaceChars]
  | cons ch s' ih =>
    have hch : ('[' : Char) ≠ ch := fun he => h (by simp [he.symm])
    rw [List.cons_append, replaceChars]
    have hcond : ¬(('[' :: pt : List Char) ≠ [] ∧
        ('[' :: pt).isPrefixOf (ch :: (s' ++ '[' :: pt)) = true) := by
      rintro ⟨-, hpre⟩
      simp only [List.isPrefixOf, Bool.and_eq_true, beq_iff_eq] at hpre
      exact hch hpre.1
    rw [if_neg hcond]
    rw [ih (fun hm => h (List.mem_cons_of_mem _ hm))]
    simp

/-- The fragment rendered for a comparison whose column and operator do not
contain `'['` is the column, the operator and the placeholder `$k`,
space-separated. -/
theorem mkWhereFragment_eq (c o : String) (k : Nat) (hc : '[' ∉ c.data) (ho : '[' ∉ o.data) :
    mkWhereFragment c o k = c ++ " " ++ o ++ " " ++ ("$" ++ Nat.repr k) := by
  apply String.ext
  have hdata : (whereBlockString c o).data
      = (c.data ++ [' '] ++ o.data ++ [' ']) ++ '[' :: "WHERE]".data := by
    simp [whereBlockString, String.data_append]
  show replaceChars (whereBlockString c o).data ("[WHERE]" : String).data
      (("$" ++ Nat.repr k : String)).data = _
  rw [hdata]
  have hpat : ("[WHERE]" : String).data = '[' :: "WHERE]".data := rfl
  rw [hpat]
  rw [replaceChars_marker _ _ _ (by
    intro hm
    simp only [List.append_assoc, List.mem_append, List.mem_cons] at hm
    rcases hm with h1 | h1 | h1 | h1
    · exact hc h1
    · revert h1; decide
    · exact ho h1
    · revert h1; decide)]
  simp [String.data_append]

theorem dollarCount_joinerFor (prev : Option WhereEntry) (b : WhereEntry) :
    dollarCount (joinerFor prev b) = 0 := by
  cases prev with
  | none => rfl
  | some p =>
    rw [joinerFor]
    split
    · decide
    · split
      · decide
      · decide

theorem dollarCount_eq_zero (s : String) (h : '$' ∉ s.data) : dollarCount s = 0 := by
  simp [dollarCount, List.count_eq_zero, h]

theorem dollarCount_lit_space : dollarCount " " = 0 := by decide

theorem dollarCount_lit_dollar : dollarCount "$" = 1 := by decide

theorem dollarCount_lit_isnull : dollarCount " IS NULL" = 0 := by decide

theorem dollarCount_lit_lparen : dollarCount "(" = 0 := by decide

theorem dollarCount_lit_rparen : dollarCount ")" = 0 := by decide

theorem dollarCount_lit_sep : dollarCount ", " = 0 := by decide

theorem dollarCount_lit_empty : dollarCount "" = 0 := by decide

/-- Under cleanliness, the assembled clause contains exactly one `$` per
comparison visited. -/
theorem buildWhereClause_dollarCount (es : List WhereEntry) :
    ∀ (prev : Option WhereEntry) (n : Nat), entriesClean es →
      dollarCount (buildWhereClause es prev n).1 = numComparisons es := by
  induction es using comparisonsOf.induct with
  | case1 =>
    intro prev n h
    simp [buildWhereClause, numComparisons, comparisonsOf, dollarCount_lit_empty]
  | case2 c o v rest ih =>
    intro prev n h
    rw [entriesClean] at h
    obtain ⟨⟨hc1, hc2, ho1, ho2⟩, hrest⟩ := h
    rw [buildWhereClause]
    simp only []
    rw [mkWhereFragment_eq c o (n + 1) hc2 ho2]
    simp only [dollarCount_append, dollarCount_joinerFor, dollarCount_eq_zero c hc1,
      dollarCount_eq_zero o ho1, dollarCount_eq_zero _ (natRepr_no_dollar (n + 1)),
      dollarCount_lit_space, dollarCount_lit_dollar, ih _ _ hrest,
      numComparisons, comparisonsOf, List.length_cons]
    omega
  | case3 c rest ih =>
    intro prev n h
    rw [entriesClean] at h
    obtain ⟨hc, hrest⟩ := h
    rw [buildWhereClause]
    simp only []
    simp only [dollarCount_append, dollarCount_joinerFor, dollarCount_eq_zero c hc,
      dollarCount_lit_isnull, ih _ _ hrest, numComparisons, comparisonsOf]
    omega
  | case4 rest ih =>
    intro prev n h
    rw [entriesClean] at h
    rw [buildWhereClause]
    simp only []
    simp only [dollarCount_append, dollarCount_joinerFor, dollarCount_lit_empty,
      ih _ _ h, numComparisons, comparisonsOf]
    omega
  | case5 sub rest ih1 ih2 =>
    intro prev n h
    rw [entriesClean] at h
    obtain ⟨hsub, hrest⟩ := h
    rw [buildWhereClause]
    simp only []
    simp only [dollarCount_append, dollarCount_joinerFor, dollarCount_lit_lparen,
      dollarCount_lit_rparen, ih1 _ _ hsub, ih2 _ _ hrest, numComparisons, comparisonsOf,
      List.length_append]
    omega

theorem dollarCount_goJoin (l : List String) (h : ∀ s ∈ l, dollarCount s = 0) :
    dollarCount (goJoin l ", ") = 0 := by
  induction l with
  | nil => rfl
  | cons e rest ih =>
    cases rest with
    | nil => simpa [goJoin] using h e (by simp)
    | cons e2 rest' =>
      rw [goJoin, dollarCount_append, dollarCount_append]
      · rw [h e (by simp), ih (fun s hs => h s (List.mem_cons_of_mem _ hs)), dollarCount_lit_sep]
      · simp

/-- Claim C5 (counterexample): the `$`-count of the rendered text does NOT
equal the number of bound values for every table name — a table name
containing `'$'` (here `"a$b"`) yields one `$` in the text but zero values. -/
theorem dollar_count_mismatch_counterexample :
    dollarCount ((Table "a$b").Get []) = 1
    ∧ (Table "a$b").Values = []
    ∧ dollarCount ((Table "a$b").Get []) ≠ ((Table "a$b").Values).length := by
  refine ⟨by decide, ?_, ?_⟩
  · simp [Builder.Values, Table, recursiveValues]
  · have h : (Table "a$b").Values = [] := by simp [Builder.Values, Table, recursiveValues]
    rw [h]
    decide

/-- Claim C5 (amended): when none of the caller-supplied strings (table name,
selected columns, order-by columns and directions) contains `'$'`, and the
WHERE entries are clean (comparison columns/operators free of `'$'` and
`'['`, null-check columns free of `'$'`), the number of `$` characters in the
rendered text equals the length of the bound-value sequence. -/
theorem dollar_count_eq_values_length (b : Builder) (cols : List String)
    (htable : '$' ∉ b.tableName.data)
    (hcols : ∀ s ∈ cols, '$' ∉ s.data)
    (hob : ∀ p ∈ b.orderBys, '$' ∉ (Prod.fst p).data ∧ '$' ∉ (Prod.snd p).data)
    (hw : entriesClean b.wheres) :
    dollarCount (b.Get cols) = b.Values.length := by
  rw [Get_eq_textSpec]
  unfold textSpec
  rw [Values_eq, List.length_map]
  simp only [dollarCount_append]
  have h1 : dollarCount "SELECT " = 0 := by decide
  have h2 : dollarCount " FROM " = 0 := by decide
  have h3 : dollarCount ";" = 0 := by decide
  have h4 : dollarCount (goJoin (if cols = [] then ["*"] else cols) ", ") = 0 := by
    apply dollarCount_goJoin
    intro s hs
    split at hs
    · simp at hs
      subst hs
      decide
    · exact dollarCount_eq_zero s (hcols s hs)
  have h5 : dollarCount (if b.wheres.isEmpty then ""
      else " WHERE " ++ (buildWhereClause b.wheres none 0).1) = numComparisons b.wheres := by
    cases hwl : b.wheres with
    | nil => simp [numComparisons, comparisonsOf, dollarCount_lit_empty]
    | cons x xs =>
      rw [hwl] at hw
      simp only [List.isEmpty_cons, if_neg Bool.false_ne_true, dollarCount_append]
      rw [buildWhereClause_dollarCount _ _ _ hw]
      have : dollarCount " WHERE " = 0 := by decide
      omega
  have h6 : dollarCount (if b.orderBys.isEmpty then ""
      else " ORDER BY " ++ goJoin (b.orderBys.map orderByString) ", ") = 0 := by
    cases hol : b.orderBys with
    | nil => simp [dollarCount_lit_empty]
    | cons x xs =>
      rw [hol] at hob
      simp only [List.isEmpty_cons, if_neg Bool.false_ne_true, dollarCount_append]
      have hjoin : dollarCount (goJoin ((x :: xs).map orderByString) ", ") = 0 := by
        apply dollarCount_goJoin
        intro s hs
        simp only [List.mem_map] at hs
        obtain ⟨p, hp, rfl⟩ := hs
        obtain ⟨hp1, hp2⟩ := hob p hp
        rw [orderByString, dollarCount_append, dollarCount_append,
          dollarCount_eq_zero _ hp1, dollarCount_eq_zero _ hp2, dollarCount_lit_space]
      have : dollarCount " ORDER BY " = 0 := by decide
      omega
  have h7 : dollarCount (match b.limit with
      | some n => " LIMIT " ++ Int.repr n | none => "") = 0 := by
    cases b.limit with
    | none => decide
    | some l =>
      simp only []
      rw [dollarCount_append, dollarCount_eq_zero _ (intRepr_no_dollar l)]
      decide
  have h8 : dollarCount (match b.offset with
      | some n => " OFFSET " ++ Int.repr n | none => "") = 0 := by
    cases b.offset with
    | none => decide
    | some o =>
      simp only []
      rw [dollarCount_append, dollarCount_eq_zero _ (intRepr_no_dollar o)]
      decide
  rw [h1, h2, h3, h4, h5, h6, h7, h8, dollarCount_eq_zero _ htable]
  simp [numComparisons]

/-- Witness for the amended C5 at a concrete clean statement. -/
theorem dollar_count_eq_values_length_witness :
    entriesClean ((Table "t").Where "a" [.vInt 5]).wheres
    ∧ dollarCount (((Table "t").Where "a" [.vInt 5]).Get [])
        = (((Table "t").Where "a" [.vInt 5]).Values).length :=
  ⟨by simp +decide [Table, Builder.Where, entriesClean],
   dollar_count_eq_values_length ((Table "t").Where "a" [.vInt 5]) []
     (by decide) (by simp) (by simp [Table, Builder.Where])
     (by simp +decide [Table, Builder.Where, entriesClean])⟩

end Bisq
